import Mathlib

/-!
Shallow embedding of the core data layer of the ring-fit-adventure-tracker
repository (src/skills.rs, src/workout.rs, src/db.rs, src/lang.rs).

Modelling conventions:
* Rust `usize` is modelled as `Nat`; where a cast to `isize` or an overflow
  check matters it is made explicit with bounds at `2 ^ 64` / `2 ^ 63`.
* Rust `String` is modelled as Lean `String`; character-level operations
  (splitting on commas, digit parsing) work on the underlying `List Char`,
  exactly mirroring what the Rust code does byte-wise on ASCII data.
* The sqlite tables are modelled as in-memory lists of rows, in insertion
  order; `SELECT *` reads iterate the rows in that order.
* `serde_json` serialization of a `Workout` is lossless and is modelled as
  the identity: a stored row holds the `Workout` value itself.
* A Rust panic (out-of-bounds array write) is modelled as `Option.none`.
* The `f64` arithmetic of the percentage helpers is modelled over `ℚ`
  (exact arithmetic); all values appearing in the spec's examples are
  exactly representable in `f64`.
-/

/-- The four skill categories (`SkillTypes` in src/skills.rs). -/
inductive SkillTypes
  | Arms
  | Core
  | Legs
  | Yoga
  deriving DecidableEq

/-- The hit/heal kinds (`SkillHits` in src/skills.rs). -/
inductive SkillHits
  | One
  | Three
  | Five
  | Heal
  deriving DecidableEq

/-- The hashtag tokens (`SkillHashtags` in src/skills.rs). -/
inductive SkillHashtags
  | Empty
  | Chest
  | UpperArms
  | Shoulders
  | Trapezius
  | Core
  | Posture
  | Legs
  | Glutes
  | LowerBody
  | Abs
  | Waist
  | Stamina
  | Back
  | Flexibility
  | Aerobic
  deriving DecidableEq

/-- The `Skill` record of src/skills.rs.  The fixed-size Rust arrays
`[usize; 4]` / `[SkillHashtags; 3]` are modelled as lists (length 4 resp. 3
in every value the program constructs). -/
structure Skill where
  name : String
  skill_type : SkillTypes
  hits : SkillHits
  damage : List Nat
  unlocks : List Nat
  hashtags : List SkillHashtags
  recharge_time : List Nat
  goal_reps : Nat
  completed_reps : Nat
  deriving DecidableEq

/-- The `Workout` record of src/workout.rs: the list of (skill, reps) pairs
logged on one day. -/
structure Workout where
  skill : List (Skill × Nat)
  deriving DecidableEq

/-- `SkillHashtags::from_str` of src/skills.rs (`Err(())` becomes `none`). -/
def SkillHashtags.fromStr : String → Option SkillHashtags
  | "" | "#Empty" => some .Empty
  | "#Chest" => some .Chest
  | "#Upper Arms" => some .UpperArms
  | "#Shoulders" => some .Shoulders
  | "#Trapezius" => some .Trapezius
  | "#Core" => some .Core
  | "#Posture" => some .Posture
  | "#Legs" => some .Legs
  | "#Glutes" => some .Glutes
  | "#Abs" => some .Abs
  | "#Stamina" => some .Stamina
  | "#Back" => some .Back
  | "#Flexibility" => some .Flexibility
  | "#Aerobic" => some .Aerobic
  | "#Waist" => some .Waist
  | "#Lower Body" => some .LowerBody
  | _ => none

/-- The decimal digit character for `k < 10`, as produced by Rust's
`usize::to_string`. -/
def digitCh : Nat → Char
  | 0 => '0'
  | 1 => '1'
  | 2 => '2'
  | 3 => '3'
  | 4 => '4'
  | 5 => '5'
  | 6 => '6'
  | 7 => '7'
  | 8 => '8'
  | _ => '9'

/-- Fuel-driven digit emitter; with fuel above `n` it produces the decimal
digit string of `n`, most significant digit first. -/
def natToCharsAux : Nat → Nat → List Char
  | 0, _ => []
  | fuel + 1, n =>
    if n < 10 then [digitCh n] else natToCharsAux fuel (n / 10) ++ [digitCh (n % 10)]

/-- The decimal digit string of a natural number (most significant digit
first), as produced by Rust's `usize::to_string`. -/
def natToChars (n : Nat) : List Char :=
  natToCharsAux (n + 1) n

/-- Rust's `str::parse::<usize>` on a 64-bit target, on the character list
of the input: an optional leading `'+'`, then at least one ASCII digit and
nothing else, with the value below `2 ^ 64` (otherwise overflow `Err`). -/
def parseChars (cs : List Char) : Option Nat :=
  let ds := if cs.head? = some '+' then cs.tail else cs
  if ds.isEmpty then none
  else if ds.all (fun c => c.isDigit) then
    let v := ds.foldl (fun acc c => acc * 10 + (c.toNat - 48)) 0
    if v < 2 ^ 64 then some v else none
  else none

/-- Rust's `str::parse::<usize>` (`Err` becomes `none`). -/
def parseUsize (s : String) : Option Nat :=
  parseChars s.data

/-- Rust's `str::split(',')` on the character list of the string: the
groups of characters between commas, in order (a trailing comma yields a
final empty group, an empty string yields one empty group). -/
def splitComma : List Char → List (List Char)
  | [] => [[]]
  | c :: cs =>
    if c = ',' then [] :: splitComma cs
    else
      match splitComma cs with
      | [] => [[c]]
      | g :: gs => (c :: g) :: gs

/-- The element extraction `result_str.split(',').filter(|s| !s.is_empty())`
used throughout `Skill::get_all_skills` (src/skills.rs). -/
def splitElems (s : String) : List String :=
  (((splitComma s.data).filter fun l => !l.isEmpty).map fun l => String.mk l)

/-- The decoding loop of `Skill::get_all_skills`: starting from the default
array `init`, write `parseElem j` at index `i` for the `i`-th element `j`.
Writing past the end of the array is the Rust panic (index out of bounds),
modelled as `none`. -/
def fillArray (parseElem : String → α) (init : List α) (elems : List String) :
    Option (List α) :=
  (elems.foldl
    (fun st j =>
      st.bind fun p =>
        if p.1 < init.length then some (p.1 + 1, p.2.set p.1 (parseElem j)) else none)
    (some (0, init))).map fun p => p.2

/-- Decoding of a `damage`/`unlock`/`recharge` column text into `[usize; 4]`
as done in `Skill::get_all_skills`: split on commas, drop empty elements,
parse each element with `parse::<usize>().unwrap_or(0)` into a zero-filled
four-element array. -/
def decode_usize_array (s : String) : Option (List Nat) :=
  fillArray (fun j => (parseUsize j).getD 0) [0, 0, 0, 0] (splitElems s)

/-- Decoding of the `hashtag` column text into `[SkillHashtags; 3]` as done
in `Skill::get_all_skills`: split on commas, drop empty elements, parse each
element with `SkillHashtags::from_str(j).unwrap_or(Empty)` into an
`Empty`-filled three-element array. -/
def decode_hashtag_array (s : String) : Option (List SkillHashtags) :=
  fillArray (fun j => (SkillHashtags.fromStr j).getD .Empty) [.Empty, .Empty, .Empty]
    (splitElems s)

/-- The array encoding used when seeding the skills table in `setup_db`
(src/db.rs): `arr.iter().map(|i| i.to_string() + ",").collect::<String>()`,
i.e. each element's decimal string followed by a comma. -/
def encode_usize_array (l : List Nat) : String :=
  String.mk (l.foldl (fun acc i => acc ++ natToChars i ++ [',']) [])

/-- The pair-building loop of `save_workout_to_db` (src/workout.rs): zip the
skill list with the raw rep strings, parse each string with
`parse::<usize>().unwrap_or(0)`, and keep the pair when the count is
nonzero. -/
def mkWorkout (skill_list : List Skill) (rep_list : List String) : Workout :=
  { skill :=
      (skill_list.zip rep_list).foldl
        (fun acc p =>
          let rep_count := (parseUsize p.2).getD 0
          if rep_count ≠ 0 then acc ++ [(p.1, rep_count)] else acc)
        [] }

/-- `save_workout_to_db` (src/workout.rs): build the filtered workout,
serialize it, and `INSERT` one row `(timestamp, workout)` at the end of the
`workouts` table.  The caller's clock `current_time` is passed explicitly. -/
def save_workout_to_db (db : List (Nat × Workout)) (current_time : Nat)
    (skill_list : List Skill) (rep_list : List String) : List (Nat × Workout) :=
  db ++ [(current_time, mkWorkout skill_list rep_list)]

/-- `get_workouts_from_db` (src/workout.rs): read every row of the
`workouts` table in order, pushing each onto a vector, then reverse so the
newest workouts come first. -/
def get_workouts_from_db (db : List (Nat × Workout)) : List (Nat × Workout) :=
  (db.foldl (fun acc r => acc ++ [r]) []).reverse

/-- `Skill::update_reps` (src/skills.rs): the SQL statement
`UPDATE skills SET completed_reps = completed_reps + :reps_today WHERE
name = :name` over the `skills` table rows. -/
def update_reps (db : List Skill) (name : String) (reps_today : Nat) : List Skill :=
  db.map fun row =>
    if row.name = name then
      { row with completed_reps := row.completed_reps + reps_today }
    else row

/-- `impl PartialEq for Skill` (src/skills.rs): equality compares only the
`name` field. -/
def skillBEq (a b : Skill) : Bool :=
  a.name == b.name

/-- `impl Hash for Skill` (src/skills.rs): only `name` is fed to the
hasher, modelled by parametrizing over the string hasher. -/
def skillHash (hashStr : String → Nat) (s : Skill) : Nat :=
  hashStr s.name

/-- Reinterpretation cast `usize as isize` on a 64-bit target. -/
def usizeToIsize (n : Nat) : Int :=
  let m : Nat := n % 2 ^ 64
  if m < 2 ^ 63 then (m : Int) else (m : Int) - 2 ^ 64

/-- Reinterpretation cast `isize as usize` on a 64-bit target. -/
def isizeToUsize (i : Int) : Nat :=
  (i % (2 ^ 64 : Int)).toNat

/-- `Skill::get_reps_until_goal` (src/skills.rs):
`(self.goal_reps as isize - self.completed_reps as isize).max(0) as usize`. -/
def Skill.get_reps_until_goal (s : Skill) : Nat :=
  isizeToUsize (max (usizeToIsize s.goal_reps - usizeToIsize s.completed_reps) 0)

/-- `Skill::get_rep_percent` (src/skills.rs):
`(completed_reps as f64 / goal_reps as f64).min(1.0) * 100.0`, with the
`f64` arithmetic modelled exactly over `ℚ`. -/
def Skill.get_rep_percent (s : Skill) : ℚ :=
  min ((s.completed_reps : ℚ) / (s.goal_reps : ℚ)) 1 * 100

/-- `Skill::get_rep_percent_uncapped` (src/skills.rs):
`(completed_reps as f64 / goal_reps as f64) * 100.0`, with the `f64`
arithmetic modelled exactly over `ℚ`. -/
def Skill.get_rep_percent_uncapped (s : Skill) : ℚ :=
  (s.completed_reps : ℚ) / (s.goal_reps : ℚ) * 100

/-- Rust's `str::replace(pat, to)` for a single-character pattern, on the
character list of the string: each occurrence of `c` becomes `r`. -/
def replaceChar (c : Char) (r : List Char) (l : List Char) : List Char :=
  (l.map fun x => if x = c then r else [x]).flatten

/-- The localization-key derivation of `Skill::get_translated_name`
(src/skills.rs): prefix `"skill_"` onto the name ASCII-lowercased
(`to_ascii_lowercase`) with spaces replaced by underscores
(`replace(' ', "_")`) and then `&` replaced by `and`
(`replace('&', "and")`). -/
def skill_key (name : String) : String :=
  "skill_" ++
    String.mk (replaceChar '&' ['a', 'n', 'd']
      (replaceChar ' ' ['_'] (name.data.map Char.toLower)))

/-- `Skill::get_translated_name` (src/skills.rs): look the derived key up
(`get_string`, modelled as the abstract `lookup`, `none` = `Err`) and fall
back to `"Invalid"` on failure. -/
def Skill.get_translated_name (lookup : String → Option String) (s : Skill) : String :=
  (lookup (skill_key s.name)).getD "Invalid"

/-- The fixed lookup key of each hashtag, from
`SkillHashtags::get_translated_name` (src/skills.rs). -/
def SkillHashtags.key : SkillHashtags → String
  | .Empty => "hashtag_empty"
  | .Chest => "hashtag_chest"
  | .UpperArms => "hashtag_upper_arms"
  | .Shoulders => "hashtag_shoulders"
  | .Trapezius => "hashtag_trapezius"
  | .Core => "hashtag_core"
  | .Posture => "hashtag_posture"
  | .Legs => "hashtag_legs"
  | .Glutes => "hashtag_glutes"
  | .LowerBody => "hashtag_lower_body"
  | .Abs => "hashtag_abs"
  | .Waist => "hashtag_waist"
  | .Stamina => "hashtag_stamina"
  | .Back => "hashtag_back"
  | .Flexibility => "hashtag_flexibility"
  | .Aerobic => "hashtag_aerobic"

/-- `SkillHashtags::get_translated_name` (src/skills.rs): look the fixed
key up and fall back to `"Invalid"` on failure. -/
def SkillHashtags.get_translated_name (lookup : String → Option String)
    (h : SkillHashtags) : String :=
  (lookup (SkillHashtags.key h)).getD "Invalid"

/-- A concrete skill used to instantiate the spec's examples. -/
def exSkillA : Skill :=
  { name := "SkillA", skill_type := .Arms, hits := .One, damage := [0, 0, 0, 0],
    unlocks := [0, 0, 0, 0], hashtags := [.Empty, .Empty, .Empty],
    recharge_time := [0, 0, 0, 0], goal_reps := 1000, completed_reps := 0 }

/-- A concrete skill used to instantiate the spec's examples. -/
def exSkillB : Skill :=
  { exSkillA with name := "SkillB", hashtags := [.Chest, .Empty, .Empty] }

/-- A concrete skill used to instantiate the spec's examples. -/
def exSkillC : Skill :=
  { exSkillA with name := "SkillC", goal_reps := 2000 }

example : parseUsize "12" = some 12 := by decide
example : parseUsize "0" = some 0 := by decide
example : parseUsize "abc" = none := by decide
example : parseUsize "" = none := by decide
example : natToChars 745 = ['7', '4', '5'] := by decide
example : splitElems "25,320,390,745," = ["25", "320", "390", "745"] := by decide
example : decode_usize_array "25,320,390,745," = some [25, 320, 390, 745] := by decide
example : decode_usize_array "1,2,3,4,5," = none := by decide
example : decode_usize_array "1,abc," = some [1, 0, 0, 0] := by decide
example : decode_hashtag_array "#Chest,#Upper Arms," = some [.Chest, .UpperArms, .Empty] := by
  decide
example :
    (mkWorkout [exSkillA, exSkillB, exSkillC] ["12", "0", "abc"]).skill =
      [(exSkillA, 12)] := by decide

/-! ### Helper lemmas -/

theorem digitCh_isDigit (k : Nat) (h : k < 10) : (digitCh k).isDigit = true := by
  interval_cases k <;> decide

theorem digitCh_val (k : Nat) (h : k < 10) : (digitCh k).toNat - 48 = k := by
  interval_cases k <;> decide

theorem natToCharsAux_ne_nil (fuel n : Nat) (h : n < fuel) :
    natToCharsAux fuel n ≠ [] := by
  cases fuel with
  | zero => omega
  | succ fuel =>
    rw [natToCharsAux]
    split
    · simp
    · simp

theorem natToCharsAux_digits (fuel : Nat) :
    ∀ n, n < fuel → ∀ c ∈ natToCharsAux fuel n, c.isDigit = true := by
  induction fuel with
  | zero => intro n h; omega
  | succ fuel ih =>
    intro n h c hc
    rw [natToCharsAux] at hc
    split at hc
    · simp at hc
      subst hc
      exact digitCh_isDigit n (by omega)
    · rename_i h10
      simp at hc
      rcases hc with hc | hc
      · exact ih (n / 10) (by omega) c hc
      · subst hc
        exact digitCh_isDigit (n % 10) (Nat.mod_lt n (by omega))

theorem natToCharsAux_foldl (fuel : Nat) :
    ∀ n acc, n < fuel →
      (natToCharsAux fuel n).foldl (fun a c => a * 10 + (c.toNat - 48)) acc =
        acc * 10 ^ (natToCharsAux fuel n).length + n := by
  induction fuel with
  | zero => intro n acc h; omega
  | succ fuel ih =>
    intro n acc h
    rw [natToCharsAux]
    split
    · rename_i h10
      simp [List.foldl, digitCh_val n h10]
    · rename_i h10
      have hdiv : n / 10 < fuel := by
        have h1 : n / 10 < n := Nat.div_lt_self (by omega) (by omega)
        omega
      rw [List.foldl_append, ih (n / 10) acc hdiv, List.length_append]
      simp only [List.foldl_cons, List.foldl_nil, List.length_cons, List.length_nil,
        digitCh_val (n % 10) (by omega : n % 10 < 10), Nat.zero_add]
      rw [pow_succ]
      have hmod : 10 * (n / 10) + n % 10 = n := Nat.div_add_mod n 10
      calc (acc * 10 ^ (natToCharsAux fuel (n / 10)).length + n / 10) * 10 + n % 10
          = acc * (10 ^ (natToCharsAux fuel (n / 10)).length * 10) +
              (10 * (n / 10) + n % 10) := by ring
        _ = acc * (10 ^ (natToCharsAux fuel (n / 10)).length * 10) + n := by rw [hmod]

theorem natToChars_digits (n : Nat) : ∀ c ∈ natToChars n, c.isDigit = true :=
  natToCharsAux_digits (n + 1) n (by omega)

theorem natToChars_ne_nil (n : Nat) : natToChars n ≠ [] :=
  natToCharsAux_ne_nil (n + 1) n (by omega)

theorem parseChars_natToChars (n : Nat) (h : n < 2 ^ 64) :
    parseChars (natToChars n) = some n := by
  have hne := natToChars_ne_nil n
  have hdig := natToChars_digits n
  obtain ⟨c, t, hct⟩ := List.exists_cons_of_ne_nil hne
  have hc : c.isDigit = true := hdig c (by rw [hct]; simp)
  have hcp : ¬c = '+' := by
    intro hcontra
    rw [hcontra] at hc
    simp at hc
  have hall : ((c :: t).all fun x => x.isDigit) = true := by
    rw [List.all_eq_true]
    intro x hx
    exact hdig x (by rw [hct]; exact hx)
  have hfold : (c :: t).foldl (fun a c => a * 10 + (c.toNat - 48)) 0 = n := by
    have hf := natToCharsAux_foldl (n + 1) n 0 (by omega)
    rw [show natToCharsAux (n + 1) n = natToChars n from rfl, hct] at hf
    simpa using hf
  rw [hct]
  simp [parseChars, hcp, hall, hfold]
  omega

theorem foldl_push_eq_append (l : List α) :
    ∀ acc : List α, l.foldl (fun a r => a ++ [r]) acc = acc ++ l := by
  induction l with
  | nil => intro acc; simp
  | cons x t ih => intro acc; simp [List.foldl, ih]

theorem get_workouts_eq_reverse (db : List (Nat × Workout)) :
    get_workouts_from_db db = db.reverse := by
  rw [get_workouts_from_db, foldl_push_eq_append]
  simp

theorem mkWorkout_foldl_eq (l : List (Skill × String)) :
    ∀ acc : List (Skill × Nat),
      l.foldl
        (fun acc p =>
          let rep_count := (parseUsize p.2).getD 0
          if rep_count ≠ 0 then acc ++ [(p.1, rep_count)] else acc)
        acc =
      acc ++ l.filterMap
        (fun p => (parseUsize p.2).bind fun n => if n = 0 then none else some (p.1, n)) := by
  have hfun :
      (fun (acc : List (Skill × Nat)) (p : Skill × String) =>
        let rep_count := (parseUsize p.2).getD 0
        if rep_count ≠ 0 then acc ++ [(p.1, rep_count)] else acc) =
      fun acc p =>
        if (parseUsize p.2).getD 0 = 0 then acc
        else acc ++ [(p.1, (parseUsize p.2).getD 0)] := by
    funext a q
    by_cases hq : (parseUsize q.2).getD 0 = 0 <;> simp [hq]
  rw [hfun]
  induction l with
  | nil => intro acc; simp
  | cons p t ih =>
    intro acc
    rw [List.foldl_cons, List.filterMap_cons]
    cases hp : parseUsize p.2 with
    | none =>
      simpa [hp] using ih acc
    | some n =>
      by_cases hn : n = 0
      · simpa [hp, hn] using ih acc
      · have hrec := ih (acc ++ [(p.1, n)])
        simp only [List.append_assoc, List.cons_append, List.nil_append] at hrec
        simpa [hp, hn] using hrec

theorem mkWorkout_eq (sl : List Skill) (rl : List String) :
    mkWorkout sl rl =
      { skill :=
          (sl.zip rl).filterMap
            (fun p => (parseUsize p.2).bind fun n => if n = 0 then none else some (p.1, n)) } := by
  rw [mkWorkout, Workout.mk.injEq, mkWorkout_foldl_eq]
  simp

theorem zip_append_left_of_le (extra : List α) :
    ∀ (sl : List α) (rl : List β), rl.length ≤ sl.length →
      (sl ++ extra).zip rl = sl.zip rl := by
  intro sl
  induction sl with
  | nil =>
    intro rl h
    have : rl = [] := by
      cases rl with
      | nil => rfl
      | cons b t => simp at h
    subst this
    simp
  | cons a t ih =>
    intro rl h
    cases rl with
    | nil => simp
    | cons b rt =>
      have hrec := ih rt (by simp at h; omega)
      simp only [List.cons_append, List.zip_cons_cons, hrec]

theorem zip_append_right_of_le (extra : List β) :
    ∀ (sl : List α) (rl : List β), sl.length ≤ rl.length →
      sl.zip (rl ++ extra) = sl.zip rl := by
  intro sl
  induction sl with
  | nil => intro rl h; simp
  | cons a t ih =>
    intro rl h
    cases rl with
    | nil => simp at h
    | cons b rt =>
      have hrec := ih rt (by simp at h; omega)
      simp only [List.cons_append, List.zip_cons_cons, hrec]

theorem fillArray_four (f : String → α) (d0 d1 d2 d3 : α) :
    ∀ (elems : List String), elems.length ≤ 4 →
      fillArray f [d0, d1, d2, d3] elems =
        some (elems.map f ++ ([d0, d1, d2, d3].drop elems.length))
  | [], _ => rfl
  | [_], _ => rfl
  | [_, _], _ => rfl
  | [_, _, _], _ => rfl
  | [_, _, _, _], _ => rfl
  | _ :: _ :: _ :: _ :: _ :: _, h => by simp at h

theorem fillArray_three (f : String → α) (d0 d1 d2 : α) :
    ∀ (elems : List String), elems.length ≤ 3 →
      fillArray f [d0, d1, d2] elems =
        some (elems.map f ++ ([d0, d1, d2].drop elems.length))
  | [], _ => rfl
  | [_], _ => rfl
  | [_, _], _ => rfl
  | [_, _, _], _ => rfl
  | _ :: _ :: _ :: _ :: _, h => by simp at h

theorem splitComma_group (rest : List Char) :
    ∀ l : List Char, (∀ c ∈ l, c ≠ ',') →
      splitComma (l ++ ',' :: rest) = l :: splitComma rest := by
  intro l
  induction l with
  | nil => intro _; simp [splitComma]
  | cons c t ih =>
    intro h
    have hc : c ≠ ',' := h c (by simp)
    have ht : ∀ x ∈ t, x ≠ ',' := fun x hx => h x (by simp [hx])
    simp only [List.cons_append, splitComma, List.append_eq, if_neg hc, ih ht]

/-- A concrete skill with goal 1000 and 10 completed reps, for the spec's
remaining-to-goal example. -/
def exSkillD : Skill :=
  { exSkillA with completed_reps := 10 }

/-- A concrete skill with goal 1000 and 5000 completed reps, for the spec's
overshoot examples. -/
def exSkillE : Skill :=
  { exSkillA with completed_reps := 5000 }

/-- A concrete skill whose name exercises the `&` and space handling of the
localization-key derivation. -/
def exSkillF : Skill :=
  { exSkillA with name := "Open & Close Leg Raise" }

/-- First of the identity-test skills (same name as the second, different
fields), mirroring the repository's own `test_skill_equality`. -/
def exSkillT1 : Skill :=
  { exSkillA with name := "Test Skill", goal_reps := 1000, completed_reps := 10 }

/-- Second identity-test skill: same name as the first, different mutable
fields. -/
def exSkillT2 : Skill :=
  { exSkillA with
    name := "Test Skill"
    hashtags := [.Empty, .LowerBody, .Empty]
    recharge_time := [0, 2, 0, 0]
    goal_reps := 50
    completed_reps := 99 }

/-- Third identity-test skill: different name, all other fields equal to the
second. -/
def exSkillT3 : Skill :=
  { exSkillT2 with name := "Test Skill 2" }

example : skill_key "Open & Close Leg Raise" = "skill_open_and_close_leg_raise" := by decide

/-! ### Claim theorems -/

/-- C3: for every skill whose counters are in `isize` range (as every skill
the program builds is), the remaining-to-goal metric equals
`max(0, goal_reps - completed_reps)`; it is never negative, and in
particular with goal 1000 it maps 10 completed reps to 990 and 5000
completed reps to 0 (see the witness). -/
theorem get_reps_until_goal_eq_max (s : Skill)
    (hg : s.goal_reps < 2 ^ 63) (hc : s.completed_reps < 2 ^ 63) :
    (s.get_reps_until_goal : Int) =
      max ((s.goal_reps : Int) - (s.completed_reps : Int)) 0 := by
  unfold Skill.get_reps_until_goal isizeToUsize usizeToIsize
  have hg64 : s.goal_reps % 2 ^ 64 = s.goal_reps := Nat.mod_eq_of_lt (by omega)
  have hc64 : s.completed_reps % 2 ^ 64 = s.completed_reps := Nat.mod_eq_of_lt (by omega)
  simp only [hg64, hc64, if_pos hg, if_pos hc]
  omega

/-- C3 witness: goal 1000 with 10 completed reps leaves 990; goal 1000 with
5000 completed reps leaves 0. -/
theorem get_reps_until_goal_eq_max_witness :
    exSkillD.get_reps_until_goal = 990 ∧ exSkillE.get_reps_until_goal = 0 := by
  constructor
  · have h := get_reps_until_goal_eq_max exSkillD (by decide) (by decide)
    have hfields : exSkillD.goal_reps = 1000 ∧ exSkillD.completed_reps = 10 := by decide
    rw [hfields.1, hfields.2] at h
    omega
  · have h := get_reps_until_goal_eq_max exSkillE (by decide) (by decide)
    have hfields : exSkillE.goal_reps = 1000 ∧ exSkillE.completed_reps = 5000 := by decide
    rw [hfields.1, hfields.2] at h
    omega

/-- C4: for every skill with nonzero goal, the capped percentage equals
`min(100, 100 * completed / goal)` and never exceeds 100, while the
uncapped percentage equals `100 * completed / goal`. -/
theorem rep_percent_capped_and_uncapped (s : Skill) (h : s.goal_reps ≠ 0) :
    s.get_rep_percent =
        min 100 (100 * (s.completed_reps : ℚ) / (s.goal_reps : ℚ)) ∧
    s.get_rep_percent ≤ 100 ∧
    s.get_rep_percent_uncapped = 100 * (s.completed_reps : ℚ) / (s.goal_reps : ℚ) := by
  unfold Skill.get_rep_percent Skill.get_rep_percent_uncapped
  refine ⟨?_, ?_, by ring⟩
  · have h1 : (100 : ℚ) * (s.completed_reps : ℚ) / (s.goal_reps : ℚ) =
        (s.completed_reps : ℚ) / (s.goal_reps : ℚ) * 100 := by ring
    rw [h1, min_mul_of_nonneg _ _ (by norm_num : (0 : ℚ) ≤ 100), min_comm]
    norm_num
  · calc min ((s.completed_reps : ℚ) / (s.goal_reps : ℚ)) 1 * 100 ≤ 1 * 100 :=
        mul_le_mul_of_nonneg_right (min_le_right _ _) (by norm_num)
    _ = 100 := by norm_num

/-- C4 witness: with goal 1000 and 5000 completed reps the capped percent is
exactly 100 and the uncapped percent is exactly 500. -/
theorem rep_percent_capped_and_uncapped_witness :
    exSkillE.get_rep_percent = 100 ∧ exSkillE.get_rep_percent_uncapped = 500 := by
  have h := rep_percent_capped_and_uncapped exSkillE (by decide)
  have hfields : exSkillE.goal_reps = 1000 ∧ exSkillE.completed_reps = 5000 := by decide
  rw [hfields.1, hfields.2] at h
  constructor
  · rw [h.1]
    norm_num
  · rw [h.2.2]
    norm_num

/-- C6: skill equality is determined solely by the name field, and the data
fed to the hasher is the name alone, so equal names give equal hashes
whatever the other fields are. -/
theorem skill_eq_and_hash_by_name_only (a b : Skill) :
    (skillBEq a b = true ↔ a.name = b.name) ∧
    ∀ hashStr : String → Nat, a.name = b.name → skillHash hashStr a = skillHash hashStr b := by
  constructor
  · simp [skillBEq]
  · intro f hn
    simp [skillHash, hn]

/-- C6 witness: the repository's own equality test data — same name with
different mutable fields compares equal (and hashes equal under a sample
hasher), different names compare unequal. -/
theorem skill_eq_and_hash_by_name_only_witness :
    skillBEq exSkillT1 exSkillT2 = true ∧
    skillBEq exSkillT2 exSkillT3 = false ∧
    skillHash String.length exSkillT1 = skillHash String.length exSkillT2 := by
  refine ⟨(skill_eq_and_hash_by_name_only exSkillT1 exSkillT2).1.mpr rfl, ?_,
    (skill_eq_and_hash_by_name_only exSkillT1 exSkillT2).2 String.length rfl⟩
  have h := (skill_eq_and_hash_by_name_only exSkillT2 exSkillT3).1
  rw [Bool.eq_false_iff]
  intro hb
  exact absurd (h.mp hb) (by decide)

/-- C9: when the localization lookup fails, both translated-name operations
return the fixed fallback string Invalid instead of propagating the
failure, and the skill lookup key is exactly the deterministic derivation
from the name (lowercase, spaces to underscores, ampersand to the literal
and, prefix skill_), e.g. "Open & Close Leg Raise" yields
"skill_open_and_close_leg_raise". -/
theorem translated_name_invalid_fallback (lookup : String → Option String) (s : Skill)
    (tag : SkillHashtags) :
    (lookup (skill_key s.name) = none → Skill.get_translated_name lookup s = "Invalid") ∧
    (lookup (SkillHashtags.key tag) = none →
      SkillHashtags.get_translated_name lookup tag = "Invalid") ∧
    skill_key s.name =
      "skill_" ++
        String.mk (replaceChar '&' ['a', 'n', 'd']
          (replaceChar ' ' ['_'] (s.name.data.map Char.toLower))) ∧
    skill_key "Open & Close Leg Raise" = "skill_open_and_close_leg_raise" := by
  refine ⟨?_, ?_, rfl, by decide⟩
  · intro h
    simp [Skill.get_translated_name, h]
  · intro h
    simp [SkillHashtags.get_translated_name, h]

/-- C9 witness: with an always-failing lookup backend, the translated skill
name and the translated hashtag name are both the literal Invalid. -/
theorem translated_name_invalid_fallback_witness :
    Skill.get_translated_name (fun _ => none) exSkillF = "Invalid" ∧
    SkillHashtags.get_translated_name (fun _ => none) .Chest = "Invalid" := by
  have h := translated_name_invalid_fallback (fun _ => none) exSkillF .Chest
  exact ⟨h.1 rfl, h.2.1 rfl⟩

/-- C10: the pairing of save_workout_to_db is strictly positional and stops
at the shorter list: extra skills beyond the rep-string list, or extra rep
strings beyond the skill list, never contribute a persisted pair. -/
theorem save_workout_pairs_truncate (sl : List Skill) (rl : List String)
    (extraS : List Skill) (extraR : List String) :
    (rl.length ≤ sl.length → mkWorkout (sl ++ extraS) rl = mkWorkout sl rl) ∧
    (sl.length ≤ rl.length → mkWorkout sl (rl ++ extraR) = mkWorkout sl rl) := by
  constructor
  · intro h
    unfold mkWorkout
    rw [zip_append_left_of_le extraS sl rl h]
  · intro h
    unfold mkWorkout
    rw [zip_append_right_of_le extraR sl rl h]

/-- C10 witness: a third skill with no matching rep string is ignored, and a
second rep string with no matching skill is ignored. -/
theorem save_workout_pairs_truncate_witness :
    mkWorkout [exSkillA, exSkillB, exSkillC] ["12", "7"] =
      mkWorkout [exSkillA, exSkillB] ["12", "7"] ∧
    mkWorkout [exSkillA] ["12", "99"] = mkWorkout [exSkillA] ["12"] := by
  constructor
  · exact (save_workout_pairs_truncate [exSkillA, exSkillB] ["12", "7"] [exSkillC] []).1
      (by decide)
  · exact (save_workout_pairs_truncate [exSkillA] ["12"] [] ["99"]).2 (by decide)

/-- C1: every call to save_workout_to_db appends exactly one row at the end
of the workout log (the prior rows unchanged, even when no pair survives
filtering), and the persisted pair list contains exactly the
(skill, parsed count) pairs whose raw text parses as a non-negative integer
with nonzero value; in particular appending
[(SkillA,"12"), (SkillB,"0"), (SkillC,"abc")] and reading the log back
yields exactly the pair list [(SkillA, 12)]. -/
theorem save_workout_appends_one_filtered_row :
    (∀ (db : List (Nat × Workout)) (t : Nat) (sl : List Skill) (rl : List String),
      (save_workout_to_db db t sl rl).length = db.length + 1 ∧
      (save_workout_to_db db t sl rl).take db.length = db ∧
      save_workout_to_db db t sl rl =
        db ++ [(t,
          { skill :=
              (sl.zip rl).filterMap fun p =>
                (parseUsize p.2).bind fun n => if n = 0 then none else some (p.1, n) })]) ∧
    get_workouts_from_db
        (save_workout_to_db [] 0 [exSkillA, exSkillB, exSkillC] ["12", "0", "abc"]) =
      [(0, { skill := [(exSkillA, 12)] })] := by
  constructor
  · intro db t sl rl
    refine ⟨by simp [save_workout_to_db], ?_, ?_⟩
    · rw [save_workout_to_db]
      exact List.take_left db _
    · rw [save_workout_to_db, mkWorkout_eq]
  · decide

/-- C5: the workout history listing returns the stored rows in reverse
insertion order (the whole log is the reverse of the table), and after three
sequential appends with increasing timestamps the three rows come back
newest first, in strictly decreasing timestamp order. -/
theorem get_workouts_newest_first :
    (∀ db : List (Nat × Workout), get_workouts_from_db db = db.reverse) ∧
    ∀ (t1 t2 t3 : Nat) (s1 s2 s3 : List Skill) (r1 r2 r3 : List String),
      t1 < t2 → t2 < t3 →
      get_workouts_from_db
          (save_workout_to_db
            (save_workout_to_db (save_workout_to_db [] t1 s1 r1) t2 s2 r2) t3 s3 r3) =
        [(t3, mkWorkout s3 r3), (t2, mkWorkout s2 r2), (t1, mkWorkout s1 r1)] ∧
      List.Chain' (fun a b : Nat × Workout => b.1 < a.1)
        (get_workouts_from_db
          (save_workout_to_db
            (save_workout_to_db (save_workout_to_db [] t1 s1 r1) t2 s2 r2) t3 s3 r3)) := by
  refine ⟨get_workouts_eq_reverse, ?_⟩
  intro t1 t2 t3 s1 s2 s3 r1 r2 r3 h12 h23
  have hdb :
      get_workouts_from_db
          (save_workout_to_db
            (save_workout_to_db (save_workout_to_db [] t1 s1 r1) t2 s2 r2) t3 s3 r3) =
        [(t3, mkWorkout s3 r3), (t2, mkWorkout s2 r2), (t1, mkWorkout s1 r1)] := by
    rw [get_workouts_eq_reverse]
    simp [save_workout_to_db]
  refine ⟨hdb, ?_⟩
  rw [hdb]
  simp only [List.chain'_cons, List.chain'_singleton, and_true]
  exact ⟨h23, h12⟩

/-- C5 witness: three appends at times 1, 2, 3 come back as times 3, 2, 1. -/
theorem get_workouts_newest_first_witness :
    get_workouts_from_db
        (save_workout_to_db
          (save_workout_to_db (save_workout_to_db [] 1 [] []) 2 [] []) 3 [] []) =
      [(3, mkWorkout [] []), (2, mkWorkout [] []), (1, mkWorkout [] [])] :=
  (get_workouts_newest_first.2 1 2 3 [] [] [] [] [] [] (by decide) (by decide)).1

/-- C8: update_reps keeps the number of skill rows; the rows whose name
matches get exactly delta added to their completed-rep counter with every
other field unchanged, rows whose name does not match are unchanged, and
when no row matches the whole table is unchanged (a successful no-op). -/
theorem update_reps_frame (db : List Skill) (name : String) (delta : Nat) :
    (update_reps db name delta).length = db.length ∧
    (∀ i, (hi : i < db.length) →
      ∃ old upd, db[i]? = some old ∧ (update_reps db name delta)[i]? = some upd ∧
        (old.name = name →
          upd.name = old.name ∧ upd.skill_type = old.skill_type ∧ upd.hits = old.hits ∧
          upd.damage = old.damage ∧ upd.unlocks = old.unlocks ∧
          upd.hashtags = old.hashtags ∧ upd.recharge_time = old.recharge_time ∧
          upd.goal_reps = old.goal_reps ∧
          upd.completed_reps = old.completed_reps + delta) ∧
        (old.name ≠ name → upd = old)) ∧
    ((∀ row ∈ db, row.name ≠ name) → update_reps db name delta = db) := by
  refine ⟨by simp [update_reps], ?_, ?_⟩
  · intro i hi
    have hlt : i < (update_reps db name delta).length := by
      simpa [update_reps] using hi
    refine ⟨db[i], (update_reps db name delta)[i],
      List.getElem?_eq_getElem hi, List.getElem?_eq_getElem hlt, ?_, ?_⟩
    · intro hname
      have hupd : (update_reps db name delta)[i] =
          { db[i] with completed_reps := db[i].completed_reps + delta } := by
        simp [update_reps, hname]
      rw [hupd]
      simp
    · intro hname
      have hupd : (update_reps db name delta)[i] = db[i] := by
        simp [update_reps, hname]
      rw [hupd]
  · intro hnone
    unfold update_reps
    conv_rhs => rw [← List.map_id db]
    apply List.map_congr_left
    intro row hrow
    rw [if_neg (hnone row hrow)]
    rfl

/-- C8 witness: updating a name present in no row leaves the table
unchanged, and an update never changes the number of rows. -/
theorem update_reps_frame_witness :
    update_reps [exSkillA, exSkillB] "SkillZ" 7 = [exSkillA, exSkillB] ∧
    (update_reps [exSkillA, exSkillB] "SkillB" 7).length = 2 := by
  constructor
  · exact (update_reps_frame [exSkillA, exSkillB] "SkillZ" 7).2.2 (by decide)
  · exact (update_reps_frame [exSkillA, exSkillB] "SkillB" 7).1

/-- C2 counterexample: the claim says the decoding of get_all_skills never
fails for arbitrary stored text, including text with more comma-separated
elements than the fixed array length — but a damage column holding five
elements makes the decoding loop index past the end of the four-element
array, which is a panic (modelled as none), not a defaulted read. -/
theorem decode_skill_row_counterexample :
    decode_usize_array "1,2,3,4,5," = none := by decide

/-- C2 (amended): for every stored column text with at most as many
nonempty comma-separated elements as the fixed array length (4 numeric,
3 tag), the decoding of get_all_skills never fails: every element that does
not parse is replaced by zero (resp. the Empty tag) and missing trailing
elements are left at the zero (resp. Empty) default; with more elements
than the array length the read panics instead. -/
theorem decode_skill_row_defaults (s : String) :
    ((splitElems s).length ≤ 4 →
      decode_usize_array s =
        some ((splitElems s).map (fun j => (parseUsize j).getD 0) ++
          ([0, 0, 0, 0].drop (splitElems s).length))) ∧
    ((splitElems s).length ≤ 3 →
      decode_hashtag_array s =
        some ((splitElems s).map (fun j => (SkillHashtags.fromStr j).getD .Empty) ++
          ([.Empty, .Empty, .Empty].drop (splitElems s).length))) :=
  ⟨fun h => fillArray_four _ 0 0 0 0 (splitElems s) h,
   fun h =>
     fillArray_three _ SkillHashtags.Empty SkillHashtags.Empty SkillHashtags.Empty
       (splitElems s) h⟩

/-- C2 witness: a numeric column with an unparseable element and a missing
tail decodes to zeros, and a tag column with a malformed token and a
missing tail decodes to Empty tags. -/
theorem decode_skill_row_defaults_witness :
    decode_usize_array "7,abc," = some [7, 0, 0, 0] ∧
    decode_hashtag_array "#Chest,xyz," = some [.Chest, .Empty, .Empty] := by
  constructor
  · have h := (decode_skill_row_defaults "7,abc,").1 (by decide)
    rw [h]
    decide
  · have h := (decode_skill_row_defaults "#Chest,xyz,").2 (by decide)
    rw [h]
    decide

/-- C7: encoding any four-element array of usize values to its
comma-terminated text form (as done when seeding the skills table) and
decoding that text back (as done when reading skill rows) returns the
original array. -/
theorem encode_decode_roundtrip (a b c d : Nat)
    (ha : a < 2 ^ 64) (hb : b < 2 ^ 64) (hc : c < 2 ^ 64) (hd : d < 2 ^ 64) :
    decode_usize_array (encode_usize_array [a, b, c, d]) = some [a, b, c, d] := by
  have hdata : (encode_usize_array [a, b, c, d]).data =
      natToChars a ++ ',' :: (natToChars b ++ ',' :: (natToChars c ++ ',' ::
        (natToChars d ++ ',' :: []))) := by
    simp [encode_usize_array, List.append_assoc]
  have hnc : ∀ n : Nat, ∀ x ∈ natToChars n, x ≠ ',' := by
    intro n x hx heq
    have hd2 := natToChars_digits n x hx
    rw [heq] at hd2
    simp at hd2
  have hsplit : splitComma (encode_usize_array [a, b, c, d]).data =
      [natToChars a, natToChars b, natToChars c, natToChars d, []] := by
    rw [hdata, splitComma_group _ _ (hnc a), splitComma_group _ _ (hnc b),
      splitComma_group _ _ (hnc c), splitComma_group _ _ (hnc d)]
    rfl
  have hne : ∀ n : Nat, (natToChars n).isEmpty = false := by
    intro n
    cases hx : natToChars n with
    | nil => exact absurd hx (natToChars_ne_nil n)
    | cons y ys => rfl
  have helems : splitElems (encode_usize_array [a, b, c, d]) =
      [String.mk (natToChars a), String.mk (natToChars b),
       String.mk (natToChars c), String.mk (natToChars d)] := by
    rw [splitElems, hsplit]
    simp [List.filter_cons, hne]
  unfold decode_usize_array
  rw [helems, fillArray_four _ 0 0 0 0 _ (by simp)]
  simp [parseUsize, parseChars_natToChars a ha, parseChars_natToChars b hb,
    parseChars_natToChars c hc, parseChars_natToChars d hd]

/-- C7 witness: the array holding a zero, two typical in-game values and the
maximal usize value round-trips through the text encoding. -/
theorem encode_decode_roundtrip_witness :
    decode_usize_array (encode_usize_array [0, 320, 18446744073709551615, 745]) =
      some [0, 320, 18446744073709551615, 745] :=
  encode_decode_roundtrip 0 320 18446744073709551615 745 (by norm_num) (by norm_num)
    (by norm_num) (by norm_num)
